import Mathlib

/-!
Shallow embedding of the feature-combination engine and run-summary logic of
the `cargo-feature-combinations` crate (`src/lib.rs`, `src/config.rs`).

Feature names are Lean `String`s.  The Rust code stores package features in a
`BTreeMap<String, Vec<String>>` of which only the key set is ever consulted by
the combination engine, so a package is embedded as a `Finset String`.  Rust
`HashSet<String>` config fields become `Finset String` (their iteration order
is irrelevant: every iteration result is re-collected into a `BTreeSet`), and
`Vec<HashSet<String>>` fields become `List (Finset String)`.
-/

/-- Embedding of the `Config` fields consulted by `Package::feature_combinations`
(`src/config.rs`, struct `Config`).  The fields `exclude_packages`, `matrix` and
the already-merged `deprecated` aliases are not read by the combination engine
and are omitted. -/
structure Config where
  isolated_feature_sets : List (Finset String)
  exclude_features : Finset String
  include_features : Finset String
  exclude_feature_sets : List (Finset String)
  include_feature_sets : List (Finset String)

/-- Embedding of `Config::default()`: every field empty. -/
def Config.default : Config :=
  ⟨[], ∅, ∅, [], []⟩

/-- Embedding of `generate_global_base_powerset` (`src/lib.rs` lines 365-383):
the powerset of the declared feature names minus `exclude_features`, with
`include_features` unioned into every member. -/
def generate_global_base_powerset (package_features exclude_features include_features :
    Finset String) : Finset (Finset String) :=
  (package_features.filter (fun ft => ft ∉ exclude_features)).powerset.image
    (fun combination => combination ∪ include_features)

/-- Embedding of `generate_isolated_base_powerset` (`src/lib.rs` lines 392-418):
for each isolated set, keep only the declared, non-excluded feature names, take
the powerset, union `include_features` into every member, and union the results
of all isolated sets (the Rust `flat_map ... collect::<BTreeSet<_>>`). -/
def generate_isolated_base_powerset (package_features : Finset String)
    (isolated_feature_sets : List (Finset String))
    (exclude_features include_features : Finset String) : Finset (Finset String) :=
  isolated_feature_sets.foldr
    (fun isolated_feature_set acc =>
      ((isolated_feature_set.filter
          (fun ft => ft ∈ package_features ∧ ft ∉ exclude_features)).powerset.image
        (fun combination => combination ∪ include_features)) ∪ acc)
    ∅

/-- Mode selection at the top of `Package::feature_combinations`
(`src/lib.rs` lines 300-313): global powerset when `isolated_feature_sets` is
empty, otherwise the isolated powerset. -/
def base_powerset (package_features : Finset String) (config : Config) :
    Finset (Finset String) :=
  if config.isolated_feature_sets.isEmpty then
    generate_global_base_powerset package_features config.exclude_features
      config.include_features
  else
    generate_isolated_base_powerset package_features config.isolated_feature_sets
      config.exclude_features config.include_features

/-- Embedding of the exclusion filter (`src/lib.rs` lines 315-327): a feature
set is dropped when some `exclude_feature_sets` member is contained in it
(`skip_set.iter().all(|f| feature_set.contains(f))`, i.e. subset). -/
def filtered_powerset (package_features : Finset String) (config : Config) :
    Finset (Finset String) :=
  (base_powerset package_features config).filter
    (fun feature_set => ¬ ∃ skip_set ∈ config.exclude_feature_sets, skip_set ⊆ feature_set)

/-- Embedding of the stripping of undeclared names from an `include_feature_sets`
entry (`src/lib.rs` lines 332-337: `filter_map(|f| self.features.get_key_value(f))`). -/
def strip_unknown (package_features proposed : Finset String) : Finset String :=
  proposed.filter (fun ft => ft ∈ package_features)

/-- Embedding of the final `BTreeSet` of feature sets built by
`Package::feature_combinations` (`src/lib.rs` lines 296-341): the filtered base
powerset with every stripped `include_feature_sets` entry inserted back. -/
def feature_combinations_set (package_features : Finset String) (config : Config) :
    Finset (Finset String) :=
  config.include_feature_sets.foldl
    (fun acc proposed => insert (strip_unknown package_features proposed) acc)
    (filtered_powerset package_features config)

/-- Byte-wise ordering of Rust `String`s, embedded as the lexicographic order
on the underlying character lists (UTF-8 byte order coincides with code-point
order, which is the lexicographic order on `String.data`). -/
def string_le (a b : String) : Prop :=
  a.data ≤ b.data

instance : DecidableRel string_le :=
  fun a b => inferInstanceAs (Decidable (a.data ≤ b.data))

instance : IsTotal String string_le :=
  ⟨fun a b => le_total a.data b.data⟩

instance : IsTrans String string_le :=
  ⟨fun _ _ _ h h2 => le_trans h h2⟩

theorem string_data_injective : Function.Injective String.data :=
  fun _ _ h => congrArg String.mk h

instance : IsAntisymm String string_le :=
  ⟨fun _ _ h h2 => string_data_injective (le_antisymm h h2)⟩

instance : IsRefl String string_le :=
  ⟨fun a => le_refl a.data⟩

/-- Key used to compare rendered feature lists: the underlying character lists,
compared lexicographically (the ordering of Rust `Vec<&String>`). -/
def lists_key (l : List String) : List (List Char) :=
  l.map String.data

theorem lists_key_injective : Function.Injective lists_key :=
  List.map_injective_iff.mpr string_data_injective

/-- Lexicographic ordering of Rust `Vec<&String>` values, embedded through
`lists_key`. -/
def lists_le (a b : List String) : Prop :=
  lists_key a ≤ lists_key b

/-- Strict version of `lists_le`. -/
def lists_lt (a b : List String) : Prop :=
  lists_key a < lists_key b

instance : DecidableRel lists_le :=
  fun a b => inferInstanceAs (Decidable (lists_key a ≤ lists_key b))

instance : IsTotal (List String) lists_le :=
  ⟨fun a b => le_total (lists_key a) (lists_key b)⟩

instance : IsTrans (List String) lists_le :=
  ⟨fun _ _ _ h h2 => le_trans h h2⟩

instance : IsAntisymm (List String) lists_le :=
  ⟨fun _ _ h h2 => lists_key_injective (le_antisymm h h2)⟩

/-- Sorted list of the elements of a finite set with respect to a decidable
total antisymmetric transitive relation, computed with structural-recursion
insertion sort so that concrete instances evaluate inside the kernel. -/
def sorted_list_of_rel {α : Type} (r : α → α → Prop) [DecidableRel r]
    [IsTotal α r] [IsTrans α r] [IsAntisymm α r] (s : Finset α) : List α :=
  Quot.liftOn s.val (fun l => l.insertionSort r)
    (fun a b h =>
      List.eq_of_perm_of_sorted
        ((List.perm_insertionSort _ a).trans
          (h.trans (List.perm_insertionSort _ b).symm))
        (List.sorted_insertionSort _ a) (List.sorted_insertionSort _ b))

/-- Embedding of rendering one `BTreeSet<&String>` as a sorted `Vec<&String>`
(`src/lib.rs` line 346: `set.into_iter().sorted().collect`). -/
def render (s : Finset String) : List String :=
  sorted_list_of_rel string_le s

/-- Embedding of the full return value of `Package::feature_combinations`
(`src/lib.rs` lines 343-348): the set of feature sets rendered as a sequence of
sorted member lists, itself sorted lexicographically (Rust `Vec<&String>`
ordering). -/
def feature_combinations (package_features : Finset String) (config : Config) :
    List (List String) :=
  sorted_list_of_rel lists_le
    ((feature_combinations_set package_features config).image render)

/-!
Embedding of the cargo-output scanners `warning_counts` and `error_counts`
(`src/lib.rs` lines 486-507).  The Rust code runs the regular expressions
`warning: .* generated (\d+) warnings?` and
`error: could not compile .* due to \s*(\d*)\s* previous errors?` (the second
with a backtick-quoted crate name) over the whole ANSI-stripped output with
`captures_iter`.  Neither the literals, `.` (which excludes a newline) nor the
digit class can cross a line break, so matching is modelled line by line; the
greedy `.*` makes the captured group come from the last candidate suffix of
the line, and the leftmost-match rule makes the scan stop at the first literal
start marker on the line.
-/

/-- Decides an ASCII decimal digit, the `\d` class on cargo output. -/
def is_ascii_digit (c : Char) : Bool :=
  '0' ≤ c && c ≤ '9'

/-- Decides the common whitespace characters matched by the `\s` class in
cargo output. -/
def is_space (c : Char) : Bool :=
  c = ' ' || c = '\t' || c = '\n' || c = '\r'

/-- Numeric value of a run of decimal digits, as `str::parse::<usize>` reads it. -/
def digits_val (ds : List Char) : Nat :=
  ds.foldl (fun acc c => 10 * acc + (c.toNat - '0'.toNat)) 0

/-- Strips a literal pattern from the front of a character list, returning the
remainder on success. -/
def drop_lit : List Char → List Char → Option (List Char)
  | [], t => some t
  | _ :: _, [] => none
  | p :: ps, c :: cs => if p = c then drop_lit ps cs else none

/-- Attempts to match ` generated (\d+) warnings?` at the head of a suffix of a
line, returning the captured count. -/
def match_generated_at (t : List Char) : Option Nat :=
  match drop_lit " generated ".data t with
  | none => none
  | some t1 =>
    let ds := t1.takeWhile is_ascii_digit
    let t2 := t1.dropWhile is_ascii_digit
    if ds.isEmpty then none
    else
      match drop_lit " warning".data t2 with
      | none => none
      | some _ => some (digits_val ds)

/-- Captured group of the last suffix of the line where
` generated (\d+) warnings?` matches; the greedy `.*` of the warning regex
selects exactly this occurrence. -/
def last_generated : List Char → Option Nat
  | [] => none
  | c :: rest =>
    match last_generated rest with
    | some n => some n
    | none => match_generated_at (c :: rest)

/-- Match of the warning regex `warning: .* generated (\d+) warnings?` against
one line: the leftmost occurrence of `warning: ` starts the match and the
greedy `.*` selects the last ` generated (\d+) warnings?` after it. -/
def find_warning : List Char → Option Nat
  | [] => none
  | c :: rest =>
    match drop_lit "warning: ".data (c :: rest) with
    | some t => last_generated t
    | none => find_warning rest

/-- Attempts to match `` ` due to\s*(\d*)\s*previous errors? `` at the head of a
suffix of a line.  An empty digit group fails `str::parse` and is mapped to 1
by `unwrap_or(1)` (`src/lib.rs` line 506). -/
def match_due_at (t : List Char) : Option Nat :=
  match drop_lit "` due to".data t with
  | none => none
  | some t1 =>
    let t2 := t1.dropWhile is_space
    let ds := t2.takeWhile is_ascii_digit
    let t3 := (t2.dropWhile is_ascii_digit).dropWhile is_space
    match drop_lit "previous error".data t3 with
    | none => none
    | some _ => some (if ds.isEmpty then 1 else digits_val ds)

/-- Captured group of the last suffix of the line where the tail of the error
regex matches; the greedy `.*` selects exactly this occurrence. -/
def last_due : List Char → Option Nat
  | [] => none
  | c :: rest =>
    match last_due rest with
    | some n => some n
    | none => match_due_at (c :: rest)

/-- Match of the error regex
`` error: could not compile `.*` due to\s*(\d*)\s*previous errors? `` against
one line. -/
def find_error : List Char → Option Nat
  | [] => none
  | c :: rest =>
    match drop_lit "error: could not compile `".data (c :: rest) with
    | some t => last_due t
    | none => find_error rest

/-- Splits captured output into lines at newline characters. -/
def split_lines : List Char → List (List Char)
  | [] => [[]]
  | c :: rest =>
    if c = '\n' then [] :: split_lines rest
    else
      match split_lines rest with
      | [] => [[c]]
      | l :: ls => (c :: l) :: ls

/-- Embedding of `warning_counts` (`src/lib.rs` lines 486-493): one captured
count per matching summary line of the stripped output. -/
def warning_counts (output : String) : List Nat :=
  (split_lines output.data).filterMap find_warning

/-- Embedding of `error_counts` (`src/lib.rs` lines 499-507): one captured
count per matching summary line of the stripped output. -/
def error_counts (output : String) : List Nat :=
  (split_lines output.data).filterMap find_error

/-- Embedding of the per-run classification in `run_cargo_command`
(`src/lib.rs` lines 722-730): `num_warnings`/`num_errors` are the sums of the
scanned counts, `fail` is a non-success exit status, and pedantic mode turns
any warning or error into a failure. -/
def pedantic_success_flag (exit_success pedantic : Bool)
    (num_errors num_warnings : Nat) : Bool :=
  let has_errors := decide (0 < num_errors)
  let has_warnings := decide (0 < num_warnings)
  let fail := !exit_success
  let pedantic_fail := pedantic && (has_errors || has_warnings)
  !(fail || pedantic_fail)

/-- Embedding of the `Summary` record built per executed feature combination
(`src/lib.rs` lines 32-41 and 732-739). -/
structure Summary where
  package_name : String
  features : List String
  exit_code : Option Int
  pedantic_success : Bool
  num_warnings : Nat
  num_errors : Nat

/-- Embedding of the `first_bad_exit_code` accumulation in `print_summary`
(`src/lib.rs` lines 540-551): scanning the outcomes in order, the first
non-pedantic-success outcome whose recorded exit code is consulted; note that
the code stores `s.exit_code` even when it is `None`, in which case a later
failing outcome may still fill the slot. -/
def first_bad_exit_code (summary : List Summary) : Option Int :=
  summary.foldl
    (fun acc s => if !s.pedantic_success && acc.isNone then s.exit_code else acc)
    none

/-- Embedding of the process exit behaviour of `print_summary`
(`src/lib.rs` lines 573-575): exit with the accumulated bad exit code when one
was found, otherwise return normally, which lets the process exit with 0. -/
def print_summary_exit (summary : List Summary) : Int :=
  match first_bad_exit_code summary with
  | some code => code
  | none => 0

/-- Embedding of the fail-fast branch of `run_cargo_command`
(`src/lib.rs` lines 741-751): `print_summary` runs first and exits with its
accumulated code when available; only otherwise is
`exit_status.code().unwrap_or(1)` reached. -/
def fail_fast_exit (summary : List Summary) (exit_code : Option Int) : Int :=
  match first_bad_exit_code summary with
  | some code => code
  | none => exit_code.getD 1

/-!
Concrete packages, configurations and outputs used to instantiate the claims.
-/

/-- Feature names of the package built by the repository test
`tests/too_many_configurations.rs`: 25 independent boolean features
`f0` to `f24`. -/
def pkg25 : Finset String :=
  {"f0", "f1", "f2", "f3", "f4", "f5", "f6", "f7", "f8", "f9", "f10", "f11", "f12",
    "f13", "f14", "f15", "f16", "f17", "f18", "f19", "f20", "f21", "f22", "f23", "f24"}

/-- Package declaring exactly the features A, B, C and D. -/
def pkg_abcd : Finset String :=
  {"A", "B", "C", "D"}

/-- Configuration with two isolated feature sets, as in the isolated-mode
scenario of the specification. -/
def cfg_iso_pairs : Config :=
  ⟨[{"A", "B"}, {"C", "D"}], ∅, ∅, [], []⟩

/-- Configuration excluding the set with A alone while force-including the
proposed set with A and the undeclared name ghost. -/
def cfg_ghost : Config :=
  ⟨[], ∅, ∅, [{"A"}], [{"A", "ghost"}]⟩

/-- Configuration that both pins the undeclared name ghost through
`include_features` and proposes it in an `include_feature_sets` entry. -/
def cfg_ghost_pin : Config :=
  ⟨[], ∅, {"ghost"}, [], [{"A", "ghost"}]⟩

/-- Configuration pinning the undeclared feature name x into every generated
combination. -/
def cfg_pin_x : Config :=
  ⟨[], ∅, {"x"}, [], []⟩

/-- Configuration pinning x while also force-including the set with A alone. -/
def cfg_pin_x_incl : Config :=
  ⟨[], ∅, {"x"}, [], [{"A"}]⟩

/-- Configuration whose exclusion list contains the set with A and B. -/
def cfg_excl_ab : Config :=
  ⟨[], ∅, ∅, [{"A", "B"}], []⟩

/-- Captured build output with two warning summary lines counting 6 and 7
warnings and one error summary line counting 2 errors. -/
def sample_output : String :=
  "   Compiling foo v0.1.0\nwarning: unused variable\nwarning: `foo` (lib) generated 6 warnings\nwarning: `bar` (lib) generated 7 warnings\nerror: could not compile `foo` due to 2 previous errors\n"

/-- Error summary line in singular grammatical form with no explicit digit. -/
def sample_singular : String :=
  "error: could not compile `foo` due to previous error"

/-- Recorded outcome that failed without an available exit code (the process
was killed abnormally). -/
def summary_none : Summary :=
  ⟨"pkg", [], none, false, 0, 0⟩

/-- Recorded outcome that succeeded cleanly. -/
def summary_ok : Summary :=
  ⟨"pkg", [], some 0, true, 0, 0⟩

/-!
General lemmas about the embedded combination engine.
-/

theorem mem_sorted_list_of_rel {α : Type} (r : α → α → Prop) [DecidableRel r]
    [IsTotal α r] [IsTrans α r] [IsAntisymm α r] (s : Finset α) (a : α) :
    a ∈ sorted_list_of_rel r s ↔ a ∈ s := by
  rcases s with ⟨m, hm⟩
  induction m using Quot.inductionOn with
  | h l => simp [sorted_list_of_rel, Finset.mem_mk]

theorem nodup_sorted_list_of_rel {α : Type} (r : α → α → Prop) [DecidableRel r]
    [IsTotal α r] [IsTrans α r] [IsAntisymm α r] (s : Finset α) :
    (sorted_list_of_rel r s).Nodup := by
  rcases s with ⟨m, hm⟩
  induction m using Quot.inductionOn with
  | h l =>
    have hl : l.Nodup := by simpa using hm
    exact ((List.perm_insertionSort r l).nodup_iff).mpr hl

theorem sorted_sorted_list_of_rel {α : Type} (r : α → α → Prop) [DecidableRel r]
    [IsTotal α r] [IsTrans α r] [IsAntisymm α r] (s : Finset α) :
    (sorted_list_of_rel r s).Sorted r := by
  rcases s with ⟨m, hm⟩
  induction m using Quot.inductionOn with
  | h l => exact List.sorted_insertionSort r l

theorem render_injective : Function.Injective render := by
  intro s t h
  ext a
  rw [← mem_sorted_list_of_rel string_le s a, ← mem_sorted_list_of_rel string_le t a]
  rw [render] at h
  rw [render] at h
  rw [h]

theorem mem_render {s : Finset String} {a : String} : a ∈ render s ↔ a ∈ s :=
  mem_sorted_list_of_rel string_le s a

theorem mem_feature_combinations {package_features : Finset String} {config : Config}
    {l : List String} :
    l ∈ feature_combinations package_features config ↔
      ∃ s ∈ feature_combinations_set package_features config, render s = l := by
  rw [feature_combinations, mem_sorted_list_of_rel]
  simp [Finset.mem_image]

theorem mem_generate_global {package_features exclude_features include_features F :
    Finset String} :
    F ∈ generate_global_base_powerset package_features exclude_features include_features ↔
      ∃ c, c ⊆ package_features.filter (fun ft => ft ∉ exclude_features) ∧
        c ∪ include_features = F := by
  simp [generate_global_base_powerset, Finset.mem_image, Finset.mem_powerset]

theorem mem_generate_isolated {package_features exclude_features include_features F :
    Finset String} {isolated_feature_sets : List (Finset String)} :
    F ∈ generate_isolated_base_powerset package_features isolated_feature_sets
        exclude_features include_features ↔
      ∃ g ∈ isolated_feature_sets,
        ∃ c, c ⊆ g.filter (fun ft => ft ∈ package_features ∧ ft ∉ exclude_features) ∧
          c ∪ include_features = F := by
  induction isolated_feature_sets with
  | nil => simp [generate_isolated_base_powerset]
  | cons g gs ih =>
    simp only [generate_isolated_base_powerset, List.foldr_cons] at ih ⊢
    simp only [Finset.mem_union, Finset.mem_image, Finset.mem_powerset, ih, List.mem_cons]
    constructor
    · rintro (⟨c, hc, rfl⟩ | ⟨g', hg', c, hc, rfl⟩)
      · exact ⟨g, Or.inl rfl, c, hc, rfl⟩
      · exact ⟨g', Or.inr hg', c, hc, rfl⟩
    · rintro ⟨g', hg' | hg', c, hc, rfl⟩
      · subst hg'
        exact Or.inl ⟨c, hc, rfl⟩
      · exact Or.inr ⟨g', hg', c, hc, rfl⟩

theorem mem_foldl_insert {α β : Type} [DecidableEq β] (g : α → β) (l : List α)
    (init : Finset β) (b : β) :
    b ∈ l.foldl (fun acc x => insert (g x) acc) init ↔ (∃ x ∈ l, g x = b) ∨ b ∈ init := by
  induction l generalizing init with
  | nil => simp
  | cons x xs ih =>
    rw [List.foldl_cons, ih]
    simp only [Finset.mem_insert, List.mem_cons]
    constructor
    · rintro (⟨y, hy, rfl⟩ | rfl | hb)
      · exact Or.inl ⟨y, Or.inr hy, rfl⟩
      · exact Or.inl ⟨x, Or.inl rfl, rfl⟩
      · exact Or.inr hb
    · rintro (⟨y, rfl | hy, rfl⟩ | hb)
      · exact Or.inr (Or.inl rfl)
      · exact Or.inl ⟨y, hy, rfl⟩
      · exact Or.inr (Or.inr hb)

theorem mem_filtered_powerset {package_features F : Finset String} {config : Config} :
    F ∈ filtered_powerset package_features config ↔
      F ∈ base_powerset package_features config ∧
        ∀ E ∈ config.exclude_feature_sets, ¬ E ⊆ F := by
  simp [filtered_powerset, Finset.mem_filter]

theorem mem_feature_combinations_set {package_features F : Finset String} {config : Config} :
    F ∈ feature_combinations_set package_features config ↔
      (∃ P ∈ config.include_feature_sets, strip_unknown package_features P = F) ∨
        (F ∈ base_powerset package_features config ∧
          ∀ E ∈ config.exclude_feature_sets, ¬ E ⊆ F) := by
  rw [feature_combinations_set, mem_foldl_insert, mem_filtered_powerset]

theorem feature_combinations_set_default (package_features : Finset String) :
    feature_combinations_set package_features Config.default = package_features.powerset := by
  ext F
  rw [mem_feature_combinations_set]
  simp [Config.default, base_powerset, mem_generate_global, Finset.mem_powerset]

theorem include_features_subset_of_mem_base {package_features F : Finset String}
    {config : Config} (h : F ∈ base_powerset package_features config) :
    config.include_features ⊆ F := by
  rw [base_powerset] at h
  split at h
  · obtain ⟨c, _, rfl⟩ := mem_generate_global.mp h
    exact Finset.subset_union_right
  · obtain ⟨g, _, c, _, rfl⟩ := mem_generate_isolated.mp h
    exact Finset.subset_union_right

theorem mem_base_members {package_features F : Finset String} {config : Config}
    (h : F ∈ base_powerset package_features config) :
    ∀ x ∈ F, (x ∈ package_features ∧ x ∉ config.exclude_features) ∨
      x ∈ config.include_features := by
  rw [base_powerset] at h
  split at h
  · obtain ⟨c, hc, rfl⟩ := mem_generate_global.mp h
    intro x hx
    rcases Finset.mem_union.mp hx with hx | hx
    · exact Or.inl (Finset.mem_filter.mp (hc hx))
    · exact Or.inr hx
  · obtain ⟨g, _, c, hc, rfl⟩ := mem_generate_isolated.mp h
    intro x hx
    rcases Finset.mem_union.mp hx with hx | hx
    · exact Or.inl (Finset.mem_filter.mp (hc hx)).2
    · exact Or.inr hx

theorem mem_base_isolated_members {package_features F : Finset String} {config : Config}
    (hne : ¬ config.isolated_feature_sets.isEmpty = true)
    (h : F ∈ base_powerset package_features config) :
    ∃ g ∈ config.isolated_feature_sets, ∀ x ∈ F, x ∈ g ∨ x ∈ config.include_features := by
  rw [base_powerset, if_neg hne] at h
  obtain ⟨g, hg, c, hc, rfl⟩ := mem_generate_isolated.mp h
  refine ⟨g, hg, fun x hx => ?_⟩
  rcases Finset.mem_union.mp hx with hx | hx
  · exact Or.inl (Finset.mem_filter.mp (hc hx)).1
  · exact Or.inr hx

theorem count_eq_one_of_mem_nodup {α : Type} [BEq α] [LawfulBEq α] {l : List α} {a : α}
    (d : l.Nodup) (h : a ∈ l) : l.count a = 1 := by
  induction l with
  | nil => cases h
  | cons b l ih =>
    have hd := List.nodup_cons.mp d
    rw [List.count_cons]
    rcases List.mem_cons.mp h with rfl | h2
    · have h0 : l.count a = 0 := List.count_eq_zero.mpr hd.1
      simp [h0]
    · have hne : (b == a) = false := by
        rw [beq_eq_false_iff_ne]
        intro hab
        subst hab
        exact hd.1 h2
      rw [ih hd.2 h2, hne]
      simp

/-!
Claim theorems.
-/

/-- C1: the spec and the repository test `tests/too_many_configurations.rs`
require a distinct "too many configurations" error for a package declaring 25
independent features under the default config, raised before the powerset is
materialized.  The code has no such guard: `feature_combinations` is total and
`feature_matrix` returns a plain `Vec<String>`, so for the 25-feature package
the engine silently produces all `2^25` feature sets. -/
theorem C1_no_explosion_guard :
    (feature_combinations_set pkg25 Config.default).card = 2 ^ 25 := by
  rw [feature_combinations_set_default, Finset.card_powerset]
  have h : pkg25.card = 25 := by decide
  rw [h]

/-- C2: with the default configuration the engine output is exactly the
powerset of the declared feature names: `2^|S|` distinct sets, all subsets of
S, containing the empty set and S itself; for the package with features A and
B the rendered output is the four sorted lists. -/
theorem C2_default_powerset (S : Finset String) :
    (feature_combinations_set S Config.default).card = 2 ^ S.card ∧
    (∀ F ∈ feature_combinations_set S Config.default, F ⊆ S) ∧
    ∅ ∈ feature_combinations_set S Config.default ∧
    S ∈ feature_combinations_set S Config.default ∧
    feature_combinations {"A", "B"} Config.default = [[], ["A"], ["A", "B"], ["B"]] := by
  rw [feature_combinations_set_default]
  exact ⟨Finset.card_powerset S, fun F hF => Finset.mem_powerset.mp hF,
    Finset.empty_mem_powerset S, Finset.mem_powerset_self S, by decide⟩

/-- Witness for C2 at the concrete package with features A and B. -/
theorem C2_default_powerset_witness :
    (feature_combinations_set {"A", "B"} Config.default).card =
        2 ^ ({"A", "B"} : Finset String).card ∧
      ∅ ∈ feature_combinations_set {"A", "B"} Config.default ∧
      ({"A", "B"} : Finset String) ∈ feature_combinations_set {"A", "B"} Config.default :=
  ⟨(C2_default_powerset {"A", "B"}).1, (C2_default_powerset {"A", "B"}).2.2.1,
    (C2_default_powerset {"A", "B"}).2.2.2.1⟩

/-- C3: a generated feature set survives the exclusion filter exactly when no
`exclude_feature_sets` member is a subset of it, and the final output is the
filtered base powerset together with the forced (stripped) inclusions, so any
output set either avoids every exclusion subset or equals a forced
inclusion. -/
theorem C3_exclusion_is_subset_match (package_features F : Finset String) (config : Config) :
    (F ∈ filtered_powerset package_features config ↔
      F ∈ base_powerset package_features config ∧
        ¬ ∃ E ∈ config.exclude_feature_sets, E ⊆ F) ∧
    (F ∈ feature_combinations_set package_features config ↔
      (∃ P ∈ config.include_feature_sets, strip_unknown package_features P = F) ∨
        F ∈ filtered_powerset package_features config) := by
  constructor
  · simp [filtered_powerset, Finset.mem_filter]
  · rw [feature_combinations_set, mem_foldl_insert]

/-- Witness for C3: the set with A and B alone is dropped by the filter of
`cfg_excl_ab` although it is in the base powerset, because the excluded set is
one of its subsets. -/
theorem C3_exclusion_is_subset_match_witness :
    ({"A", "B"} : Finset String) ∉ filtered_powerset pkg_abcd cfg_excl_ab ∧
      ({"A", "B"} : Finset String) ∈ base_powerset pkg_abcd cfg_excl_ab :=
  ⟨fun hmem =>
    (((C3_exclusion_is_subset_match pkg_abcd {"A", "B"} cfg_excl_ab).1.mp hmem).2)
      ⟨{"A", "B"}, by decide, by decide⟩,
    by decide⟩

/-- C4 counterexample: with the undeclared name ghost both stripped from an
`include_feature_sets` entry and pinned through `include_features`, ghost is
removed from the forced inclusion yet still appears in an output feature set
(the base generator unions `include_features` verbatim into every
combination), so a stripped unknown name is not in general absent from the
output. -/
theorem C4_counterexample :
    "ghost" ∉ ({"A"} : Finset String) ∧
    ({"A", "ghost"} : Finset String) ∈ cfg_ghost_pin.include_feature_sets ∧
    strip_unknown {"A"} {"A", "ghost"} = {"A"} ∧
    ({"ghost"} : Finset String) ∈ feature_combinations_set {"A"} cfg_ghost_pin ∧
    "ghost" ∈ ({"ghost"} : Finset String) := by
  decide

/-- C4 amended: every forced inclusion is stripped of undeclared names and
then occurs exactly once in the final output, surviving the exclusion filter,
and a name that is neither declared nor pinned through `include_features`
occurs in no output set (a stripped unknown name can still appear when it is
also a member of `include_features`, which is unioned verbatim into every
generated combination). -/
theorem C4_forced_inclusion (package_features : Finset String) (config : Config) :
    (∀ P ∈ config.include_feature_sets,
      (feature_combinations package_features config).count
        (render (strip_unknown package_features P)) = 1) ∧
    (∀ x : String, x ∉ package_features → x ∉ config.include_features →
      ∀ F ∈ feature_combinations_set package_features config, x ∉ F) := by
  constructor
  · intro P hP
    have hset : strip_unknown package_features P ∈
        feature_combinations_set package_features config :=
      mem_feature_combinations_set.mpr (Or.inl ⟨P, hP, rfl⟩)
    have hmem : render (strip_unknown package_features P) ∈
        feature_combinations package_features config :=
      mem_feature_combinations.mpr ⟨_, hset, rfl⟩
    have hnodup : (feature_combinations package_features config).Nodup := by
      rw [feature_combinations]
      exact nodup_sorted_list_of_rel _ _
    exact count_eq_one_of_mem_nodup hnodup hmem
  · intro x hxp hxi F hF hxF
    rcases mem_feature_combinations_set.mp hF with ⟨P, _, rfl⟩ | ⟨hbase, _⟩
    · exact hxp (Finset.mem_filter.mp hxF).2
    · rcases mem_base_members hbase x hxF with ⟨h1, _⟩ | h2
      · exact hxp h1
      · exact hxi h2

/-- Witness for C4: forcing the set with A and ghost on the package declaring
only A, under a config whose filter would drop the set with A alone, still
produces that stripped set exactly once, and ghost is undeclared. -/
theorem C4_forced_inclusion_witness :
    (feature_combinations {"A"} cfg_ghost).count
        (render (strip_unknown {"A"} {"A", "ghost"})) = 1 ∧
      "ghost" ∉ ({"A"} : Finset String) :=
  ⟨(C4_forced_inclusion {"A"} cfg_ghost).1 {"A", "ghost"} (by decide), by decide⟩

/-- C5 counterexample: for the package declaring A, B, C and D with isolated
sets for A,B and for C,D, the output is the union of the two powersets, which
deduplicates the shared empty set and therefore has 7 elements, not the 8
claimed. -/
theorem C5_counterexample :
    feature_combinations_set pkg_abcd cfg_iso_pairs =
        ({"A", "B"} : Finset String).powerset ∪ ({"C", "D"} : Finset String).powerset ∧
      (feature_combinations_set pkg_abcd cfg_iso_pairs).card = 7 ∧
      (feature_combinations_set pkg_abcd cfg_iso_pairs).card ≠ 8 := by
  refine ⟨by decide, by decide, by decide⟩

/-- C5 amended: in isolated mode every output set either is a forced inclusion
or draws all its members from a single isolated group plus the pinned
`include_features`; for the A,B / C,D scenario the output is the union of the
two 4-element powersets, i.e. 7 sets after deduplicating the shared empty
set. -/
theorem C5_isolated_groups (package_features : Finset String) (config : Config)
    (F : Finset String) (hmode : config.isolated_feature_sets.isEmpty = false)
    (hF : F ∈ feature_combinations_set package_features config) :
    ((∃ P ∈ config.include_feature_sets, strip_unknown package_features P = F) ∨
      ∃ g ∈ config.isolated_feature_sets, ∀ x ∈ F, x ∈ g ∨ x ∈ config.include_features) ∧
    feature_combinations_set pkg_abcd cfg_iso_pairs =
      ({"A", "B"} : Finset String).powerset ∪ ({"C", "D"} : Finset String).powerset ∧
    (feature_combinations_set pkg_abcd cfg_iso_pairs).card = 7 := by
  refine ⟨?_, by decide, by decide⟩
  rcases mem_feature_combinations_set.mp hF with h | ⟨hbase, _⟩
  · exact Or.inl h
  · exact Or.inr (mem_base_isolated_members (by simp [hmode]) hbase)

/-- Witness for C5 at the concrete isolated scenario and the output set with
A and B. -/
theorem C5_isolated_groups_witness :
    (∃ P ∈ cfg_iso_pairs.include_feature_sets, strip_unknown pkg_abcd P = {"A", "B"}) ∨
      ∃ g ∈ cfg_iso_pairs.isolated_feature_sets,
        ∀ x ∈ ({"A", "B"} : Finset String), x ∈ g ∨ x ∈ cfg_iso_pairs.include_features :=
  (C5_isolated_groups pkg_abcd cfg_iso_pairs {"A", "B"} (by decide) (by decide)).1

/-- C6: the final output of the engine is duplicate-free and sorted by the
lexicographic ordering of the rendered member lists.  Regeneration
determinism is inherent in the embedding: the output is a pure function of
the package features and the config. -/
theorem C6_output_sorted_nodup (package_features : Finset String) (config : Config) :
    (feature_combinations package_features config).Sorted lists_lt ∧
    (feature_combinations package_features config).Nodup := by
  have hs : (feature_combinations package_features config).Sorted lists_le := by
    rw [feature_combinations]
    exact sorted_sorted_list_of_rel _ _
  have hn : (feature_combinations package_features config).Nodup := by
    rw [feature_combinations]
    exact nodup_sorted_list_of_rel _ _
  refine ⟨?_, hn⟩
  exact hs.imp₂
    (fun a b hab hne => lt_of_le_of_ne hab (fun hk => hne (lists_key_injective hk))) hn

/-- C7: the warning scanner captures 6 and 7 from the two warning summary
lines and the error scanner captures 2 from the error summary line of
`sample_output`, the sums are 13 and 2, a singular summary line with no digit
counts as one error, and with those counts pedantic mode never classifies the
run as a pedantic success. -/
theorem C7_warning_error_counts :
    warning_counts sample_output = [6, 7] ∧
    error_counts sample_output = [2] ∧
    (warning_counts sample_output).sum = 13 ∧
    (error_counts sample_output).sum = 2 ∧
    error_counts sample_singular = [1] ∧
    (∀ exit_success : Bool,
      pedantic_success_flag exit_success true (error_counts sample_output).sum
        (warning_counts sample_output).sum = false) := by
  decide

theorem foldl_first_bad_some (l : List Summary) (c : Int) :
    l.foldl
        (fun acc s => if !s.pedantic_success && acc.isNone then s.exit_code else acc)
        (some c) = some c := by
  induction l with
  | nil => rfl
  | cons s l ih => simpa using ih

theorem first_bad_exit_code_eq (l : List Summary) :
    first_bad_exit_code l =
      ((l.filter (fun s => !s.pedantic_success)).filterMap Summary.exit_code).head? := by
  induction l with
  | nil => rfl
  | cons s l ih =>
    rw [first_bad_exit_code, List.foldl_cons]
    by_cases hps : s.pedantic_success
    · simpa [hps, first_bad_exit_code] using ih
    · have hps' : s.pedantic_success = false := by simpa using hps
      cases hec : s.exit_code with
      | none => simpa [hps', hec, first_bad_exit_code] using ih
      | some c =>
        have hinit : (if !s.pedantic_success && (none : Option Int).isNone then
            (some c : Option Int) else none) = some c := by
          rw [hps']
          rfl
        rw [hinit, foldl_first_bad_some]
        have hfil : (s :: l).filter (fun s => !s.pedantic_success) =
            s :: l.filter (fun s => !s.pedantic_success) := by
          rw [List.filter_cons_of_pos]
          rw [hps']
          rfl
        rw [hfil, List.filterMap_cons, hec]
        rfl

/-- C8 counterexample: a single recorded outcome that failed without an
available exit code makes `print_summary` return normally, so the process
exits with 0, not with the claimed 1. -/
theorem C8_counterexample :
    summary_none.pedantic_success = false ∧ summary_none.exit_code = none ∧
      print_summary_exit [summary_none] = 0 ∧ print_summary_exit [summary_none] ≠ 1 := by
  refine ⟨rfl, rfl, rfl, by decide⟩

/-- C8 amended: the exit code is 0 when every outcome is a pedantic success;
without fail-fast it is the exit code of the first non-pedantic-success
outcome that has one available (failing outcomes whose code is `None` leave
the slot open for later failures), or 0 when none has; in the fail-fast branch
the first failing outcome's code is used with 1 substituted when
unavailable. -/
theorem C8_exit_code (l : List Summary) (s : Summary) :
    ((∀ t ∈ l, t.pedantic_success = true) → print_summary_exit l = 0) ∧
    print_summary_exit l =
      (((l.filter (fun t => !t.pedantic_success)).filterMap Summary.exit_code).head?).getD 0 ∧
    ((∀ t ∈ l, t.pedantic_success = true) → s.pedantic_success = false →
      fail_fast_exit (l ++ [s]) s.exit_code = s.exit_code.getD 1) := by
  have hmain : print_summary_exit l =
      (((l.filter (fun t => !t.pedantic_success)).filterMap Summary.exit_code).head?).getD 0 := by
    rw [print_summary_exit, first_bad_exit_code_eq]
    cases ((l.filter (fun t => !t.pedantic_success)).filterMap Summary.exit_code).head? with
    | none => rfl
    | some c => rfl
  refine ⟨?_, hmain, ?_⟩
  · intro hall
    have hfilter : l.filter (fun t => !t.pedantic_success) = [] := by
      rw [List.filter_eq_nil_iff]
      intro t ht
      simp [hall t ht]
    rw [hmain, hfilter]
    rfl
  · intro hall hs
    have hnone : first_bad_exit_code l = none := by
      rw [first_bad_exit_code_eq]
      have hfilter : l.filter (fun t => !t.pedantic_success) = [] := by
        rw [List.filter_eq_nil_iff]
        intro t ht
        simp [hall t ht]
      rw [hfilter]
      rfl
    have happ : first_bad_exit_code (l ++ [s]) = s.exit_code := by
      rw [first_bad_exit_code, List.foldl_append]
      rw [first_bad_exit_code] at hnone
      rw [hnone, List.foldl_cons, List.foldl_nil]
      simp [hs]
    rw [fail_fast_exit, happ]
    cases s.exit_code with
    | none => rfl
    | some c => rfl

/-- Witness for C8 with one clean outcome followed by an abnormally killed
failing outcome. -/
theorem C8_exit_code_witness :
    print_summary_exit [summary_ok] = 0 ∧
      fail_fast_exit ([summary_ok] ++ [summary_none]) summary_none.exit_code =
        summary_none.exit_code.getD 1 := by
  have h := C8_exit_code [summary_ok] summary_none
  refine ⟨h.1 ?_, h.2.2 ?_ rfl⟩
  · intro t ht
    rw [List.mem_singleton] at ht
    subst ht
    rfl
  · intro t ht
    rw [List.mem_singleton] at ht
    subst ht
    rfl

/-- C9 counterexample: with no exclusion entries at all but a non-empty
`include_features`, the empty feature set does not appear in the output
because the pinned feature is unioned into every generated combination. -/
theorem C9_counterexample :
    cfg_pin_x.exclude_feature_sets = [] ∧
      ∅ ∉ feature_combinations_set {"A"} cfg_pin_x := by
  exact ⟨rfl, by decide⟩

/-- C9 amended: when `include_features` is empty the empty feature set is
always a base candidate, and it appears in the final output exactly when no
`exclude_feature_sets` entry is empty or some forced inclusion strips to the
empty set. -/
theorem C9_empty_feature_set (package_features : Finset String) (config : Config)
    (hI : config.include_features = ∅) :
    ∅ ∈ base_powerset package_features config ∧
    (∅ ∈ feature_combinations_set package_features config ↔
      (∀ E ∈ config.exclude_feature_sets, E ≠ ∅) ∨
        ∃ P ∈ config.include_feature_sets, strip_unknown package_features P = ∅) := by
  have hbase : ∅ ∈ base_powerset package_features config := by
    rw [base_powerset]
    split
    · exact mem_generate_global.mpr
        ⟨∅, Finset.empty_subset _, by rw [hI, Finset.union_empty]⟩
    case isFalse h =>
      cases hgs : config.isolated_feature_sets with
      | nil => rw [hgs] at h; simp at h
      | cons g gs =>
        exact mem_generate_isolated.mpr
          ⟨g, List.mem_cons_self g gs, ∅, Finset.empty_subset _,
            by rw [hI, Finset.union_empty]⟩
  refine ⟨hbase, ?_⟩
  rw [mem_feature_combinations_set]
  constructor
  · rintro (⟨P, hP, h⟩ | ⟨_, hall⟩)
    · exact Or.inr ⟨P, hP, h⟩
    · refine Or.inl (fun E hE hEempty => ?_)
      exact hall E hE (by rw [hEempty])
  · rintro (hne | ⟨P, hP, h⟩)
    · exact Or.inr ⟨hbase, fun E hE hsub => hne E hE (Finset.subset_empty.mp hsub)⟩
    · exact Or.inl ⟨P, hP, h⟩

/-- Witness for C9 at the single-feature package with the default config. -/
theorem C9_empty_feature_set_witness :
    ∅ ∈ base_powerset {"A"} Config.default ∧
    (∅ ∈ feature_combinations_set {"A"} Config.default ↔
      (∀ E ∈ Config.default.exclude_feature_sets, E ≠ ∅) ∨
        ∃ P ∈ Config.default.include_feature_sets, strip_unknown {"A"} P = ∅) :=
  C9_empty_feature_set {"A"} Config.default rfl

/-- C10: when no `include_feature_sets` entries exist, every output feature
set contains `include_features` verbatim, declared or not; a forced inclusion
is inserted without that union, so with a non-empty `include_feature_sets`
some output set can lack the pinned features. -/
theorem C10_include_features_pinned (package_features : Finset String) (config : Config)
    (hincl : config.include_feature_sets = []) :
    (∀ F ∈ feature_combinations_set package_features config,
      config.include_features ⊆ F) ∧
    ({"A"} : Finset String) ∈ feature_combinations_set {"A"} cfg_pin_x_incl ∧
    ¬ cfg_pin_x_incl.include_features ⊆ ({"A"} : Finset String) := by
  refine ⟨?_, by decide, by decide⟩
  intro F hF
  rcases mem_feature_combinations_set.mp hF with ⟨P, hP, _⟩ | ⟨hbase, _⟩
  · rw [hincl] at hP
    cases hP
  · exact include_features_subset_of_mem_base hbase

/-- Witness for C10: the undeclared pinned feature x is contained in the
output set consisting of x alone. -/
theorem C10_include_features_pinned_witness :
    cfg_pin_x.include_features ⊆ ({"x"} : Finset String) :=
  (C10_include_features_pinned {"A"} cfg_pin_x rfl).1 {"x"} (by decide)
